import Mathlib

/-!
Verification of the Orchestra multi-agent coding pipeline.

This file gives a shallow embedding, in Lean 4, of the core engines of the
repository: the parallel dispatcher (`dispatcher/parallel_dispatcher.py`),
the cross evaluator (`evaluator/cross_evaluator.py`), the response parser
(`utils/code_parser.py`), the diff generator (`utils/diff_generator.py`) and
the backup manager (`utils/backup_manager.py`), together with theorems about
the embedded operations.

Modelling conventions:
* Python strings are Lean `String`s; character-level scanning (the regex
  based parser) works on `List Char` obtained through `String.data`.
* Python floats carrying scores are modelled as `ℚ` (all scores produced by
  the program are finite decimal values, for which rational arithmetic is
  exact).
* `async` functions are modelled as pure functions; an agent call that may
  raise an exception is modelled as an `Except String` value carried by the
  agent record.  `asyncio.gather(..., return_exceptions=True)` keeps results
  in task-submission order (index addressed), so the dispatch loop is an
  index-preserving `List.map`.
* Filesystem state is explicit: an association list from path to content,
  plus (for the diff engine, where directory creation matters) a set of
  existing directories.
-/

namespace Orchestra

deriving instance DecidableEq for Except

/-- Embedding of `AgentResponse` (`agents/base.py`).  Only the fields that
are read by the engines under verification are carried: `agent_name`,
`agent_type`, `content` and the `metadata` error marker (the dispatcher
stores `metadata = {"error": True}` on a failed slot).  The remaining
optional fields (`code`, `explanation`, `confidence`, `timestamp`,
`tokens_used`, `latency_ms`) are never read by the dispatcher, the
evaluator, the parser, the diff engine or the backup engine. -/
structure AgentResponse where
  agent_name : String
  agent_type : String
  content : String
  metadata : List (String × Bool)
deriving DecidableEq

/-- A registered agent, as seen by `ParallelDispatcher.dispatch_all`
(`dispatcher/parallel_dispatcher.py`, lines 41-81): a name, an agent type,
and the outcome of its `query` coroutine for the dispatched prompt.  The
outcome is `Except.error e` when the coroutine raises an exception with
text `e`, and `Except.ok r` when it returns the response `r`. -/
structure DispatchAgent where
  name : String
  agent_type : String
  queryResult : Except String AgentResponse

/-- One result slot of `dispatch_all`: the per-index wrapping performed by
the loop over `asyncio.gather(*tasks, return_exceptions=True)` — an
exception in slot `i` is replaced by a failed `AgentResponse` carrying the
agent's identity, the text `"Error: " ++ e` and `metadata = {"error": True}`;
a returned response is kept unchanged. -/
def dispatchOne (a : DispatchAgent) : AgentResponse :=
  match a.queryResult with
  | Except.ok r => r
  | Except.error e =>
    { agent_name := a.name
      agent_type := a.agent_type
      content := "Error: " ++ e
      metadata := [(("error"), true)] }

/-- Embedding of `ParallelDispatcher.dispatch_all`: raises `ValueError` when
no agents are registered, otherwise produces one response per agent, in
agent order. -/
def dispatch_all (agents : List DispatchAgent) : Except String (List AgentResponse) :=
  if agents.isEmpty then
    Except.error ("No agents available. Please configure at least one API key.")
  else
    Except.ok (agents.map dispatchOne)

/-! ## Diff statistics (`utils/diff_generator.py`, `_calculate_stats`) -/

/-- Split a character list at every newline character (the semantics of
`str.split("\n")`: the empty string yields one empty fragment). -/
def splitNl : List Char → List (List Char)
  | [] => [[]]
  | c :: cs =>
    if c = '\n' then [] :: splitNl cs
    else
      match splitNl cs with
      | [] => [[c]]
      | l :: ls => (c :: l) :: ls

/-- Python `str.splitlines` restricted to `"\n"` separators (the only line
ending produced and consumed by the diff engine): split on newlines and
drop the trailing empty fragment produced by a terminal newline. -/
def pySplitlines (s : String) : List String :=
  let parts := (splitNl s.data).map (fun l => String.mk l)
  if parts.getLast? = some ("") then parts.dropLast else parts

/-- The line list of an optional content value, as computed by
`old_content.splitlines() if old_content else []` — `None` and the empty
string (both falsy) give the empty list. -/
def contentLines (c : Option String) : List String :=
  match c with
  | none => []
  | some s => if s = "" then [] else pySplitlines s

/-- Embedding of the dictionary returned by `DiffGenerator._calculate_stats`
(`utils/diff_generator.py`, lines 132-148).  Counts are Python ints,
modelled as `Int`. -/
structure DiffStats where
  old_lines : Int
  new_lines : Int
  lines_added : Int
  lines_removed : Int
  chars_added : Int
  chars_removed : Int
deriving DecidableEq

/-- Embedding of `DiffGenerator._calculate_stats`. -/
def calculate_stats (old_content new_content : Option String) : DiffStats :=
  let old_lines := contentLines old_content
  let new_lines := contentLines new_content
  { old_lines := (old_lines.length : Int)
    new_lines := (new_lines.length : Int)
    lines_added := max 0 ((new_lines.length : Int) - (old_lines.length : Int))
    lines_removed := max 0 ((old_lines.length : Int) - (new_lines.length : Int))
    chars_added := match new_content with | some s => (s.length : Int) | none => 0
    chars_removed := match old_content with | some s => (s.length : Int) | none => 0 }

/-! ## Cross evaluator (`evaluator/cross_evaluator.py`) -/

/-- Python `str.lower()` on the ASCII agent names used by the program. -/
def toLowerStr (s : String) : String :=
  String.mk (s.data.map Char.toLower)

/-- Split a character list at every occurrence of `sep` (the semantics of
`str.split(sep)` for a one-character separator). -/
def splitOnChar (sep : Char) : List Char → List (List Char)
  | [] => [[]]
  | c :: cs =>
    if c = sep then [] :: splitOnChar sep cs
    else
      match splitOnChar sep cs with
      | [] => [[c]]
      | l :: ls => (c :: l) :: ls

/-- Value of a digit string read in base 10. -/
def digitsVal (l : List Char) : Nat :=
  l.foldl (fun n c => 10 * n + (c.toNat - 48)) 0

/-- Python `float(s)` restricted to strings containing only digits and
dots — the only shape reaching it in the agents' score extraction, where
the model output is first filtered by `x.isdigit() or x == '.'`.  It
accepts `D+`, `D+.D*` and `.D+`; everything else (empty string, lone dot,
several dots) raises `ValueError`, modelled as `none`. -/
def pyFloatDigitsDots (l : List Char) : Option ℚ :=
  match splitOnChar ('.') l with
  | [ds] =>
    if ds ≠ [] ∧ ds.all Char.isDigit then some ((digitsVal ds : ℚ)) else none
  | [ip, fp] =>
    if (ip.all Char.isDigit ∧ fp.all Char.isDigit) ∧ (ip ≠ [] ∨ fp ≠ []) then
      some ((digitsVal ip : ℚ) + (digitsVal fp : ℚ) / (10 : ℚ) ^ fp.length)
    else none
  | _ => none

/-- The score-extraction pipeline shared by every agent implementation in
the repository (`agents/claude_agent.py` lines 93-106, and analogously
`openai_agent.py`, `gemini_agent.py`; `base_cli.py` differs only in how the
numeric substring is located): given the raw outcome of the underlying
model call (exception, or response text), keep the digits and dots of the
text, parse them with `float`, and clamp the value into `[0, 100]` with
`max(0, min(100, score))`; any exception — including a `ValueError` from a
non-numeric text — yields the neutral score `50.0`. -/
def scoreFromOutput (raw : Except String String) : ℚ :=
  match raw with
  | Except.error _ => 50
  | Except.ok txt =>
    match pyFloatDigitsDots (txt.data.filter (fun c => c.isDigit || c = ('.'))) with
    | none => 50
    | some x => max 0 (min 100 x)

/-- An agent as used by `CrossEvaluator`: a name and the outcome of its
`evaluate(original_prompt, response, other_responses)` coroutine —
`Except.error e` when the coroutine raises, `Except.ok s` when it returns
the score `s`. -/
structure EvalAgent where
  name : String
  evaluate : String → AgentResponse → List AgentResponse → Except String ℚ

/-- Python-dict assignment `d[k] = v` on an association list: an existing
key is updated in place, a new key is appended. -/
def dictSet (d : List (String × ℚ)) (k : String) (v : ℚ) : List (String × ℚ) :=
  if d.any (fun p => p.1 == k) then
    d.map (fun p => if p.1 == k then (k, v) else p)
  else d ++ [(k, v)]

/-- Python-dict lookup on an association list. -/
def dictGet (d : List (String × ℚ)) (k : String) : Option ℚ :=
  (d.find? (fun p => p.1 == k)).map (fun p => p.2)

/-- The `other_responses` list for candidate `i`:
`[r for j, r in enumerate(responses) if j != i]`. -/
def othersFor (responses : List AgentResponse) (i : Nat) : List AgentResponse :=
  (responses.enum.filter (fun p => p.1 ≠ i)).map (fun p => p.2)

/-- The value recorded for one (candidate, evaluator) cell: the evaluator's
returned score, or the neutral `50.0` when its `evaluate` call raised
(the `except` branch of `_create_evaluation_matrix`). -/
def matrixCell (prompt : String) (resp : AgentResponse)
    (others : List AgentResponse) (agent : EvalAgent) : ℚ :=
  match agent.evaluate prompt resp others with
  | Except.ok s => s
  | Except.error _ => 50

/-- One row of the evaluation matrix: the inner loop of
`_create_evaluation_matrix` over `self.dispatcher.agents`, skipping the
agent that authored the response (case-insensitive name comparison) and
otherwise recording `matrixCell` under the agent's name. -/
def matrixRow (prompt : String) (agents : List EvalAgent)
    (resp : AgentResponse) (others : List AgentResponse) : List (String × ℚ) :=
  agents.foldl
    (fun row agent =>
      if toLowerStr agent.name == toLowerStr resp.agent_name then row
      else dictSet row agent.name (matrixCell prompt resp others agent))
    []

/-- Embedding of `CrossEvaluator._create_evaluation_matrix`
(`evaluator/cross_evaluator.py`, lines 77-115).  The Python dict keyed by
`str(i)` is modelled as the list of rows in index order (the keys
`"0" .. "n-1"` are exactly the indices of `responses`). -/
def create_evaluation_matrix (prompt : String) (agents : List EvalAgent)
    (responses : List AgentResponse) : List (List (String × ℚ)) :=
  responses.enum.map (fun p => matrixRow prompt agents p.2 (othersFor responses p.1))

/-- Embedding of `EvaluationResult` (`evaluator/cross_evaluator.py`). -/
structure EvaluationResult where
  response : AgentResponse
  scores : List (String × ℚ)
  average_score : ℚ
  rank : Nat
deriving DecidableEq

/-- Embedding of `CrossEvaluator._calculate_results`: per response, the
mean of its received scores, or the default middle score `75.0` when it
received none; `rank` is `0` until assigned. -/
def calculate_results (responses : List AgentResponse)
    (matrix : List (List (String × ℚ))) : List EvaluationResult :=
  responses.enum.map (fun p =>
    let scores := matrix.getD p.1 []
    { response := p.2
      scores := scores
      average_score :=
        if scores = [] then (75 : ℚ)
        else (scores.map (fun q => q.2)).sum / (scores.length : ℚ)
      rank := 0 })

/-- The comparison used by `results.sort(key=lambda x: x.average_score,
reverse=True)`: a stable sort that puts larger averages first. -/
def scoreLe (a b : EvaluationResult) : Bool :=
  decide (b.average_score ≤ a.average_score)

/-- Rank assignment `for i, result in enumerate(results, 1): result.rank = i`,
performed after sorting. -/
def assignRanksFrom (k : Nat) : List EvaluationResult → List EvaluationResult
  | [] => []
  | r :: rest => { r with rank := k } :: assignRanksFrom (k + 1) rest

/-- Embedding of `CrossEvaluator.evaluate_responses`
(`evaluator/cross_evaluator.py`, lines 32-75): empty input gives an empty
result; a single response gets the default good score `85.0` and rank 1;
otherwise the evaluation matrix is built, averages computed, results sorted
by average score descending (Python's sort is stable) and ranks `1..N`
assigned in sorted order. -/
def evaluate_responses (prompt : String) (agents : List EvalAgent)
    (responses : List AgentResponse) : List EvaluationResult :=
  match responses with
  | [] => []
  | [r] =>
    [{ response := r
       scores := [(("self"), (85 : ℚ))]
       average_score := 85
       rank := 1 }]
  | _ =>
    let matrix := create_evaluation_matrix prompt agents responses
    let results := calculate_results responses matrix
    let sorted := results.mergeSort scoreLe
    assignRanksFrom 1 sorted

/-- The unranked per-response results as computed inside
`evaluate_responses` before sorting: matrix construction followed by
average computation.  Abbreviation used to state ranking theorems. -/
def baseResults (prompt : String) (agents : List EvalAgent)
    (responses : List AgentResponse) : List EvaluationResult :=
  calculate_results responses (create_evaluation_matrix prompt agents responses)

/-- Erase the rank field of a result (used to compare ranked output with
the unranked sorted list). -/
def eraseRank (r : EvaluationResult) : EvaluationResult :=
  { r with rank := 0 }

/-- Fixture: prompt used by concrete instances. -/
def wPrompt : String := "p"

/-- Fixture: a response authored by agent bob. -/
def wRespBob : AgentResponse :=
  { agent_name := "bob", agent_type := "B", content := "x", metadata := [] }

/-- Fixture: a response authored by agent carol. -/
def wRespCarol : AgentResponse :=
  { agent_name := "carol", agent_type := "C", content := "y", metadata := [] }

/-- Fixture: an evaluator agent whose model call returns the raw text
`"150"` — a numeric score outside `[0, 100]` — which the repository's
score-extraction pipeline turns into `clamp(150) = 100`. -/
def c5Agent : EvalAgent :=
  { name := "alice"
    evaluate := fun _ _ _ => Except.ok (scoreFromOutput (Except.ok ("150"))) }

/-- Fixture: an evaluator agent scoring bob lower than carol. -/
def wEvalAgent : EvalAgent :=
  { name := "alice"
    evaluate := fun _ r _ =>
      if r.agent_name == "bob" then Except.ok ((60 : ℚ)) else Except.ok ((90 : ℚ)) }

/-! ## Backup manager (`utils/backup_manager.py`)

The filesystem is explicit state: an association list from path to file
content for the working directory, and one simulated snapshot directory per
backup name.  Paths are the relative path strings used by the program
(`working_dir / file_path` and `backup_path / file_path` resolve the same
relative path against different roots, so each area is keyed by the
relative path).  I/O failures are not modelled: in this embedding every
copy and write succeeds deterministically, which is the execution the
round-trip claims describe.  `create_backup` returns `str(backup_path)`;
the snapshot is identified here by its directory name, since both resolve
to the same directory under `backup_dir`. -/

/-- Lookup in a path-keyed association map. -/
def alGet {α : Type} (m : List (String × α)) (k : String) : Option α :=
  (m.find? (fun p => p.1 == k)).map (fun p => p.2)

/-- Write (create or overwrite) in a path-keyed association map. -/
def alSet {α : Type} (m : List (String × α)) (k : String) (v : α) : List (String × α) :=
  if m.any (fun p => p.1 == k) then
    m.map (fun p => if p.1 == k then (k, v) else p)
  else m ++ [(k, v)]

/-- One entry of `manifest["files"]`: original path, path stored relative
to the snapshot directory (`backup_file_path.relative_to(backup_path)`,
which is the original relative path again), and byte size. -/
structure ManifestEntry where
  original_path : String
  backup_path : String
  size : Nat
deriving DecidableEq

/-- The manifest written to `manifest.json` (the `backup_path` string field
of the manifest dict is derivable from the name and is not needed by
`restore_backup`, which only reads `files`). -/
structure Manifest where
  timestamp : String
  files : List ManifestEntry
deriving DecidableEq

/-- One snapshot directory: its copied files and its manifest, if written. -/
structure BackupDir where
  files : List (String × String)
  manifest : Option Manifest
deriving DecidableEq

/-- The state touched by `BackupManager`: the working directory and the
backup root (one snapshot directory per name). -/
structure BackupState where
  working : List (String × String)
  backups : List (String × BackupDir)
deriving DecidableEq

/-- Embedding of `BackupManager.create_backup` (`utils/backup_manager.py`,
lines 30-78): for each path that exists in the working directory, copy it
into the snapshot directory (a snapshot directory of the same name is
reused, as `mkdir(exist_ok=True)` does) and append a manifest entry;
finally write the manifest and return the snapshot identifier. -/
def create_backup (st : BackupState) (timestamp : String)
    (file_paths : List String) : BackupState × String :=
  let backup_name := "backup_" ++ timestamp
  let bd0 := (alGet st.backups backup_name).getD { files := [], manifest := none }
  let res := file_paths.foldl
    (fun (acc : BackupDir × List ManifestEntry) (fp : String) =>
      match alGet st.working fp with
      | none => acc
      | some content =>
        ({ acc.1 with files := alSet acc.1.files fp content },
          acc.2 ++ [{ original_path := fp, backup_path := fp,
                      size := content.length }]))
    (bd0, [])
  let bd1 : BackupDir :=
    { res.1 with manifest := some { timestamp := timestamp, files := res.2 } }
  ({ st with backups := alSet st.backups backup_name bd1 }, backup_name)

/-- Result record of `restore_backup`. -/
structure RestoreResult where
  restored : List String
  failed : List (String × String)
deriving DecidableEq

/-- The per-entry filter of `restore_backup`:
`if file_paths and original_path not in file_paths: continue`.  `None` and
the empty list are falsy, so they skip nothing; a non-empty list skips
every original path not in it. -/
def skipEntry (file_paths : Option (List String)) (orig : String) : Bool :=
  match file_paths with
  | none => false
  | some l => !(l.isEmpty) && !(l.contains orig)

/-- One iteration of the restore loop: skip filtered entries; copy the
stored file back over the original location (recording it as restored), or
record a failure when the stored file is missing (the exception raised by
`shutil.copy2` on a missing source). -/
def restoreStep (bd : BackupDir) (file_paths : Option (List String))
    (acc : RestoreResult × List (String × String)) (e : ManifestEntry) :
    RestoreResult × List (String × String) :=
  if skipEntry file_paths e.original_path then acc
  else
    match alGet bd.files e.backup_path with
    | some content =>
      ({ acc.1 with restored := acc.1.restored ++ [e.original_path] },
        alSet acc.2 e.original_path content)
    | none =>
      ({ acc.1 with failed :=
          acc.1.failed ++ [(e.original_path, ("copy failed"))] },
        acc.2)

/-- Embedding of `BackupManager.restore_backup` (`utils/backup_manager.py`,
lines 107-158): `ValueError` when the snapshot or its manifest is missing;
otherwise walk the manifest entries, restoring each non-filtered one. -/
def restore_backup (st : BackupState) (backup_name : String)
    (file_paths : Option (List String)) :
    Except String (RestoreResult × BackupState) :=
  match alGet st.backups backup_name with
  | none => Except.error ("Backup not found")
  | some bd =>
    match bd.manifest with
    | none => Except.error ("Backup manifest not found")
    | some m =>
      let res := m.files.foldl (restoreStep bd file_paths)
        ({ restored := [], failed := [] }, st.working)
      Except.ok (res.1, { st with working := res.2 })

/-- Fixture: manifest entry for the restore witness. -/
def wManifestEntry : ManifestEntry :=
  { original_path := "a.txt", backup_path := "a.txt", size := 3 }

/-- Fixture: manifest for the restore witness. -/
def wManifest : Manifest := { timestamp := "t", files := [wManifestEntry] }

/-- Fixture: snapshot directory holding one stored file. -/
def wBackupDir : BackupDir :=
  { files := [(("a.txt"), ("old"))], manifest := some wManifest }

/-- Fixture: state with one snapshot and an empty working directory. -/
def wBackupState : BackupState :=
  { working := [], backups := [(("backup_t"), wBackupDir)] }

/-- Fixture: working directory with one file, no snapshots yet. -/
def wC4State : BackupState :=
  { working := [(("a.txt"), ("old"))], backups := [] }

/-- The snapshot directory produced by backing up the single file `f` with
content `c` (used to state the round-trip proof). -/
def singleBackupDir (st : BackupState) (ts f c : String) : BackupDir :=
  { files := alSet ((alGet st.backups ("backup_" ++ ts)).getD
      { files := [], manifest := none }).files f c
    manifest := some
      { timestamp := ts
        files := [{ original_path := f
                    backup_path := f
                    size := c.length }] } }

/-! ## Diff engine apply (`utils/diff_generator.py`, `apply_changes`)

File paths are the relative path strings carried by `FileDiff.file_path`;
directory structure (`file_path.parent.mkdir(parents=True, exist_ok=True)`)
is modelled by splitting the path on `/` and tracking the set of existing
directories as component lists.  A per-diff I/O-error oracle models an
exception raised by the filesystem calls inside the per-diff `try` block
(raised before any mutation of that diff takes effect); the deterministic
no-error execution is the oracle returning `none` everywhere. -/

/-- Embedding of `OperationType` (`utils/code_parser.py`). -/
inductive OperationType where
  | CREATE
  | MODIFY
  | DELETE
  | UNKNOWN
deriving DecidableEq

/-- Embedding of `FileDiff` (`utils/diff_generator.py`).  The diff text is
carried but never read by `apply_changes`. -/
structure FileDiff where
  operation : OperationType
  file_path : String
  old_content : Option String
  new_content : Option String
  unified_diff : String
  stats : DiffStats
deriving DecidableEq

/-- Components of a relative path string, split on `/`. -/
def pathComponents (p : String) : List String :=
  (splitOnChar ('/') p.data).map (fun l => String.mk l)

/-- The non-empty prefixes of a component list: the chain of directories
`mkdir(parents=True)` brings into existence for that directory path. -/
def pathPrefixes (comps : List String) : List (List String) :=
  (List.range comps.length).map (fun i => comps.take (i + 1))

/-- Filesystem state seen by `apply_changes`: files by relative path, and
the set of existing directories (as component lists). -/
structure ApplyFS where
  files : List (String × String)
  dirs : List (List String)
deriving DecidableEq

/-- `file_path.parent.mkdir(parents=True, exist_ok=True)`: the parent
directory of `p` and all its ancestors come into existence. -/
def mkdirParents (fs : ApplyFS) (p : String) : ApplyFS :=
  { fs with dirs := fs.dirs ++ pathPrefixes (pathComponents p).dropLast }

/-- `Path.unlink`: remove a file from the map. -/
def alDel {α : Type} (m : List (String × α)) (k : String) : List (String × α) :=
  m.filter (fun p => !(p.1 == k))

/-- Result record of `apply_changes`. -/
structure ApplyResult where
  success : List String
  failed : List (String × String)
  skipped : List String
deriving DecidableEq

/-- One iteration of the `apply_changes` loop: dry-run records success
without touching disk; an I/O exception for this diff is caught and
recorded in `failed`; otherwise parent directories are created, then a
`DELETE` unlinks an existing file (or is skipped when the file is absent)
and anything else writes `new_content or ""`. -/
def applyStep (dry_run : Bool) (ioErr : FileDiff → Option String)
    (acc : ApplyResult × ApplyFS) (diff : FileDiff) : ApplyResult × ApplyFS :=
  if dry_run then
    ({ acc.1 with success := acc.1.success ++ [diff.file_path] }, acc.2)
  else
    match ioErr diff with
    | some e =>
      ({ acc.1 with failed := acc.1.failed ++ [(diff.file_path, e)] }, acc.2)
    | none =>
      let fs2 := mkdirParents acc.2 diff.file_path
      if diff.operation = OperationType.DELETE then
        if (alGet fs2.files diff.file_path).isSome then
          ({ acc.1 with success := acc.1.success ++ [diff.file_path] },
            { fs2 with files := alDel fs2.files diff.file_path })
        else
          ({ acc.1 with skipped := acc.1.skipped ++ [diff.file_path] }, fs2)
      else
        ({ acc.1 with success := acc.1.success ++ [diff.file_path] },
          { fs2 with
            files := alSet fs2.files diff.file_path (diff.new_content.getD "") })

/-- Embedding of `DiffGenerator.apply_changes` (`utils/diff_generator.py`,
lines 207-256). -/
def apply_changes (fs : ApplyFS) (diffs : List FileDiff) (dry_run : Bool)
    (ioErr : FileDiff → Option String) : ApplyResult × ApplyFS :=
  diffs.foldl (applyStep dry_run ioErr)
    ({ success := [], failed := [], skipped := [] }, fs)

/-- The oracle of the deterministic no-I/O-error execution. -/
def noErr : FileDiff → Option String := fun _ => none

/-- Fixture: a Create diff for `a.txt` with content `"hi"`. -/
def wCreateDiff : FileDiff :=
  { operation := OperationType.CREATE
    file_path := "a.txt"
    old_content := none
    new_content := some ("hi")
    unified_diff := ""
    stats := calculate_stats none (some ("hi")) }

/-- Fixture: a Delete diff for the absent file `b.txt`. -/
def wDeleteDiff : FileDiff :=
  { operation := OperationType.DELETE
    file_path := "b.txt"
    old_content := none
    new_content := none
    unified_diff := ""
    stats := calculate_stats none none }

/-- Fixture: a Delete diff whose target sits in missing subdirectories. -/
def wDeepDeleteDiff : FileDiff :=
  { operation := OperationType.DELETE
    file_path := "sub/dir/b.txt"
    old_content := none
    new_content := none
    unified_diff := ""
    stats := calculate_stats none none }

/-- Fixture: the empty filesystem. -/
def wEmptyFS : ApplyFS := { files := [], dirs := [] }

/-! ## Response parser (`utils/code_parser.py`)

The parser works on `List Char` (obtained from `String.data`).  Each regex
of the source is implemented as a hand-written matcher with the exact
backtracking semantics of the Python pattern on the character classes
involved (greedy quantifiers over disjoint classes are deterministic; the
one genuinely backtracking step, `X+\.[a-z]+` after a greedy `X+` run,
resolves to the largest split index whose dot is followed by a letter).
`re.IGNORECASE` makes literal keywords and the `[a-z]` classes
case-insensitive; `re.MULTILINE` lets `^` match after every newline.
`\s` is modelled by `Char.isWhitespace` and `\w` by alphanumerics plus
underscore, which agree on the ASCII texts the program handles. -/

/-- The backtick character (the code-fence delimiter). -/
def fenceChar : Char := Char.ofNat 96

/-- The apostrophe character (one of the optional path quotes). -/
def apostropheChar : Char := Char.ofNat 39

/-- A literal code fence: three backticks. -/
def fence3 : List Char := [fenceChar, fenceChar, fenceChar]

/-- Python `\w` on ASCII: letters, digits, underscore. -/
def isWordChar (c : Char) : Bool := c.isAlphanum || c == ('_')

/-- Characters allowed in a `[^\s:]+` path run. -/
def notSpaceColon (c : Char) : Bool := !(c.isWhitespace) && !(c == (':'))

/-- The quote class of pattern 2: backtick, double quote, apostrophe. -/
def isQuoteChar (c : Char) : Bool :=
  (c == fenceChar) || (c == ('"')) || (c == apostropheChar)

/-- Characters allowed in a `[^\s`"\']+` path run (no space, no quote). -/
def notSpaceQuote (c : Char) : Bool := !(c.isWhitespace) && !(isQuoteChar c)

/-- Case-insensitive prefix test (for `re.IGNORECASE` literals). -/
def isPrefixOfCI : List Char → List Char → Bool
  | [], _ => true
  | _ :: _, [] => false
  | p :: ps, c :: cs => (p.toLower == c.toLower) && isPrefixOfCI ps cs

/-- Lower-case a character list (`str.lower()` on ASCII). -/
def toLowerChars (l : List Char) : List Char := l.map Char.toLower

/-- Python `str.strip()`: drop whitespace from both ends. -/
def stripChars (l : List Char) : List Char :=
  ((l.dropWhile Char.isWhitespace).reverse.dropWhile Char.isWhitespace).reverse

/-- Substring test: does `needle` occur inside the second list? -/
def containsSub (needle : List Char) : List Char → Bool
  | [] => needle.isPrefixOf []
  | c :: cs => needle.isPrefixOf (c :: cs) || containsSub needle cs

/-- The backtracking step shared by the path patterns: after a greedy run
of path characters, `X+\.[a-z]+` succeeds at the largest index `k ≥ 1`
such that `run[k]` is a dot followed by a letter; the capture is the
prefix, the dot, and the maximal letter run after it (the regex match ends
there — trailing run characters are left unconsumed). -/
def dotExtSplit (run : List Char) : Option (List Char) :=
  match (List.range run.length).reverse.find? (fun k =>
      decide (1 ≤ k) && (run.getD k (' ') == ('.')) &&
        (run.getD (k + 1) (' ')).isAlpha) with
  | none => none
  | some k => some (run.take k ++ [('.')] ++ (run.drop (k + 1)).takeWhile Char.isAlpha)

/-- Matcher for `FILE_PATTERNS[0]`:
`(?:File:|📄|→)\s*([^\s:]+\.[a-z]+)` with `IGNORECASE`. -/
def matchAtP1 (_ : Bool) (s : List Char) : Option (List Char × List Char) :=
  let tail := fun (plen : Nat) =>
    let rest2 := (s.drop plen).dropWhile Char.isWhitespace
    let run := rest2.takeWhile notSpaceColon
    match dotExtSplit run with
    | none => none
    | some cap => some (cap, rest2.drop cap.length)
  if isPrefixOfCI (("file:").data) s then tail 5
  else if (("📄").data).isPrefixOf s then tail 1
  else if (("→").data).isPrefixOf s then tail 1
  else none

/-- The quoted-path tail of `FILE_PATTERNS[1]`:
`[`"\']?([^\s`"\']+\.[a-z]+)[`"\']?`. -/
def matchTailP2 (t : List Char) : Option (List Char × List Char) :=
  let t1 := match t with
    | c :: cs => if isQuoteChar c then cs else t
    | [] => t
  let run := t1.takeWhile notSpaceQuote
  match dotExtSplit run with
  | none => none
  | some cap =>
    let rest := t1.drop cap.length
    let rest2 := match rest with
      | c :: cs => if isQuoteChar c then cs else rest
      | [] => rest
    some (cap, rest2)

/-- Matcher for `FILE_PATTERNS[1]`:
`(?:create|modify|delete|update)\s+(?:file\s+)?[`"\']?([^\s`"\']+\.[a-z]+)[`"\']?`
with `IGNORECASE`.  The optional `file\s+` group is tried greedily first
and dropped on failure. -/
def matchAtP2 (_ : Bool) (s : List Char) : Option (List Char × List Char) :=
  let kw := isPrefixOfCI (("create").data) s || isPrefixOfCI (("modify").data) s ||
    isPrefixOfCI (("delete").data) s || isPrefixOfCI (("update").data) s
  if kw then
    let rest1 := s.drop 6
    if (rest1.takeWhile Char.isWhitespace) = [] then none
    else
      let rest2 := rest1.dropWhile Char.isWhitespace
      let withFile :=
        if isPrefixOfCI (("file").data) rest2 then
          let r3 := rest2.drop 4
          if (r3.takeWhile Char.isWhitespace) = [] then none
          else matchTailP2 (r3.dropWhile Char.isWhitespace)
        else none
      match withFile with
      | some res => some res
      | none => matchTailP2 rest2
  else none

/-- The drive-path core of `FILE_PATTERNS[2]`: `([a-zA-Z]:[/\\][^\s]+\.[a-z]+)`. -/
def matchDrive (t : List Char) : Option (List Char × List Char) :=
  match t with
  | c0 :: c1 :: c2 :: rest =>
    if c0.isAlpha && (c1 == (':')) && ((c2 == ('/')) || (c2 == ('\\'))) then
      let run := rest.takeWhile (fun c => !(c.isWhitespace))
      match dotExtSplit run with
      | none => none
      | some cap => some ([c0, c1, c2] ++ cap, rest.drop cap.length)
    else none
  | _ => none

/-- Matcher for `FILE_PATTERNS[2]` (Windows paths):
`(?:in\s+)?([a-zA-Z]:[/\\][^\s]+\.[a-z]+)` with `IGNORECASE`. -/
def matchAtP3 (_ : Bool) (s : List Char) : Option (List Char × List Char) :=
  let withIn :=
    if isPrefixOfCI (("in").data) s then
      let r := s.drop 2
      if (r.takeWhile Char.isWhitespace) = [] then none
      else matchDrive (r.dropWhile Char.isWhitespace)
    else none
  match withIn with
  | some res => some res
  | none => matchDrive s

/-- Matcher for `FILE_PATTERNS[3]` (Unix paths): `([~/][^\s]+\.[a-z]+)`. -/
def matchAtP4 (_ : Bool) (s : List Char) : Option (List Char × List Char) :=
  match s with
  | c :: rest =>
    if (c == ('~')) || (c == ('/')) then
      let run := rest.takeWhile (fun ch => !(ch.isWhitespace))
      match dotExtSplit run with
      | none => none
      | some cap => some (c :: cap, rest.drop cap.length)
    else none
  | [] => none

/-- The identifier-dot-extension capture of `FILE_PATTERNS[4]`:
`([a-zA-Z_][a-zA-Z0-9_]*\.[a-z]+)` (the word run cannot contain the dot,
so the greedy run is deterministic). -/
def identDotExt (t : List Char) : Option (List Char × List Char) :=
  match t with
  | c0 :: rest =>
    if c0.isAlpha || (c0 == ('_')) then
      let wrun := rest.takeWhile isWordChar
      let after := rest.drop wrun.length
      match after with
      | d :: a :: _ =>
        if (d == ('.')) && a.isAlpha then
          let letters := (after.drop 1).takeWhile Char.isAlpha
          some (c0 :: wrun ++ (('.') :: letters), after.drop (1 + letters.length))
        else none
      | _ => none
    else none
  | [] => none

/-- The body after the line anchor of `FILE_PATTERNS[4]`:
`\s*#?\s*([a-zA-Z_][a-zA-Z0-9_]*\.[a-z]+)`. -/
def bodyP5 (t : List Char) : Option (List Char × List Char) :=
  let t1 := t.dropWhile Char.isWhitespace
  let t2 := match t1 with
    | c :: cs => if c == ('#') then cs.dropWhile Char.isWhitespace else t1
    | [] => t1
  identDotExt t2

/-- Matcher for `FILE_PATTERNS[4]` (bare filenames):
`(?:^|\n)\s*#?\s*([a-zA-Z_][a-zA-Z0-9_]*\.[a-z]+)` with `MULTILINE`.
The `^` branch (line start, zero width) is tried before the literal `\n`
branch, as in the source alternation. -/
def matchAtP5 (atLS : Bool) (s : List Char) : Option (List Char × List Char) :=
  match (if atLS then bodyP5 s else none) with
  | some res => some res
  | none =>
    match s with
    | c :: cs => if c == ('\n') then bodyP5 cs else none
    | [] => none

/-- The `re.findall` scan: try the matcher at each position from left to
right; on success record the match start position and the capture, and
resume after the end of the match (matches do not overlap).  `atLS` tracks
whether the current position is at the start of a line (for `MULTILINE`
`^`).  The fuel argument bounds the recursion by the text length. -/
def scanMatches (matchAt : Bool → List Char → Option (List Char × List Char)) :
    Nat → Nat → Bool → List Char → List (Nat × List Char)
  | 0, _, _, _ => []
  | _ + 1, _, _, [] => []
  | fuel + 1, pos, atLS, c :: cs =>
    match matchAt atLS (c :: cs) with
    | some (cap, rest) =>
      (pos, cap) :: scanMatches matchAt fuel
        (pos + ((c :: cs).length - rest.length))
        (decide (((c :: cs).take ((c :: cs).length - rest.length)).getLast? =
          some ('\n'))) rest
    | none => scanMatches matchAt fuel (pos + 1) (c == ('\n')) cs

/-- All matches of one pattern over a text, with their start positions. -/
def findallPos (matchAt : Bool → List Char → Option (List Char × List Char))
    (text : List Char) : List (Nat × List Char) :=
  scanMatches matchAt (text.length + 1) 0 true text

/-- Embedding of `CodeParser._extract_file_path` (`utils/code_parser.py`,
lines 141-150): try the five `FILE_PATTERNS` in order; the first pattern
with any match wins, and its last match (stripped) is returned. -/
def extract_file_path (text : List Char) : Option (List Char) :=
  match findallPos matchAtP1 text with
  | [] =>
    match findallPos matchAtP2 text with
    | [] =>
      match findallPos matchAtP3 text with
      | [] =>
        match findallPos matchAtP4 text with
        | [] =>
          match findallPos matchAtP5 text with
          | [] => none
          | ms => (ms.getLast?).map (fun m => stripChars m.2)
        | ms => (ms.getLast?).map (fun m => stripChars m.2)
      | ms => (ms.getLast?).map (fun m => stripChars m.2)
    | ms => (ms.getLast?).map (fun m => stripChars m.2)
  | ms => (ms.getLast?).map (fun m => stripChars m.2)

/-- Modelled from the spec: "search the text preceding the block ...
against an ordered list of path-recognizing patterns ...  The last match
before the block wins (most proximate mention is assumed most relevant)."
All mentions of all five patterns, pooled. -/
def allPatternMentions (text : List Char) : List (Nat × List Char) :=
  findallPos matchAtP1 text ++ findallPos matchAtP2 text ++
    findallPos matchAtP3 text ++ findallPos matchAtP4 text ++
    findallPos matchAtP5 text

/-- Modelled from the spec: the mention occurring last (largest start
position) among all pattern matches, stripped like the source's result. -/
def lastMentionSpec (text : List Char) : Option (List Char) :=
  ((allPatternMentions text).foldl
    (fun best m =>
      match best with
      | none => some m
      | some b => if b.1 ≤ m.1 then some m else some b)
    none).map (fun m => stripChars m.2)

/-- Split a character list just before the first occurrence of the
(non-empty) pattern: `full.split(code)[0]`.  `none` when the pattern does
not occur. -/
def prefixBeforeFirst (pat : List Char) : List Char → Option (List Char)
  | [] => if pat.isPrefixOf [] then some [] else none
  | c :: cs =>
    if pat.isPrefixOf (c :: cs) then some []
    else (prefixBeforeFirst pat cs).map (fun r => c :: r)

/-- Find the earliest closing fence: the text before it and the text after
it (the lazy `(.*?)` of the code-block regex). -/
def splitAtFence : List Char → Option (List Char × List Char)
  | [] => none
  | c :: cs =>
    if fence3.isPrefixOf (c :: cs) then some ([], (c :: cs).drop 3)
    else (splitAtFence cs).map (fun p => (c :: p.1, p.2))

/-- Try the code-block regex ` ```(\w*)\n(.*?)``` ` (with `DOTALL`) at the
current position: opening fence, greedy word run, a newline, then the
shortest content ending at a closing fence. -/
def matchFenceAt (s : List Char) : Option (List Char × List Char × List Char) :=
  if fence3.isPrefixOf s then
    let r := s.drop 3
    let lang := r.takeWhile isWordChar
    match r.drop lang.length with
    | nl :: r2 =>
      if nl == ('\n') then
        match splitAtFence r2 with
        | some (content, rest) => some (lang, content, rest)
        | none => none
      else none
    | [] => none
  else none

/-- `re.finditer` over the code-block regex. -/
def scanFencedBlocks : Nat → List Char → List (List Char × List Char)
  | 0, _ => []
  | _ + 1, [] => []
  | fuel + 1, c :: cs =>
    match matchFenceAt (c :: cs) with
    | some (lang, content, rest) => (lang, content) :: scanFencedBlocks fuel rest
    | none => scanFencedBlocks fuel cs

/-- Join lines with newlines (`"\n".join(...)`). -/
def joinNlLines (ls : List (List Char)) : List Char :=
  List.intercalate [('\n')] ls

/-- The fallback of `_extract_code_blocks`: indentation-delimited blocks.
A line starting with four spaces or a tab opens or extends a block; once
inside a block every line is appended, and a blank line flushes the block;
a trailing unflushed block is appended at the end. -/
def indentedBlocks (text : List Char) : List (List Char × List Char) :=
  let res := (splitNl text).foldl
    (fun (st : List (List Char × List Char) × List (List Char) × Bool)
        (line : List Char) =>
      if (List.replicate 4 (' ')).isPrefixOf line ||
          ([('\t')] : List Char).isPrefixOf line then
        (st.1, st.2.1 ++ [line], true)
      else if st.2.2 then
        if stripChars line = [] then
          (st.1 ++ [((("text").data), joinNlLines (st.2.1 ++ [line]))], [], false)
        else (st.1, st.2.1 ++ [line], true)
      else st)
    ([], [], false)
  if res.2.1 ≠ [] then res.1 ++ [((("text").data), joinNlLines res.2.1)]
  else res.1

/-- Embedding of `CodeParser._extract_code_blocks`: fenced blocks (language
defaulted to `"text"`, content stripped), falling back to indented blocks
when no fenced block is found. -/
def extract_code_blocks (text : List Char) : List (List Char × List Char) :=
  let blocks := (scanFencedBlocks (text.length + 1) text).map
    (fun p => ((if p.1 = [] then (("text").data) else p.1), stripChars p.2))
  if blocks = [] then indentedBlocks text else blocks

/-- One attempt of `^class\s+(\w+)` at a position (also the body of the
unanchored `class\s+(\w+)` used for javascript and typescript). -/
def pyClassAt (t : List Char) : Option (List Char) :=
  if (("class").data).isPrefixOf t then
    let r := t.drop 5
    if (r.takeWhile Char.isWhitespace) = [] then none
    else
      let w := (r.dropWhile Char.isWhitespace).takeWhile isWordChar
      if w = [] then none else some w
  else none

/-- `re.search(r'^class\s+(\w+)', code, re.MULTILINE)`: first match at a
line start. -/
def pyClassScan : Nat → Bool → List Char → Option (List Char)
  | 0, _, _ => none
  | _ + 1, _, [] => none
  | fuel + 1, atLS, c :: cs =>
    match (if atLS then pyClassAt (c :: cs) else none) with
    | some w => some w
    | none => pyClassScan fuel (c == ('\n')) cs

/-- `re.search(r'class\s+(\w+)', code)`: first match anywhere. -/
def jsClassScan : Nat → List Char → Option (List Char)
  | 0, _ => none
  | _ + 1, [] => none
  | fuel + 1, c :: cs =>
    match pyClassAt (c :: cs) with
    | some w => some w
    | none => jsClassScan fuel cs

/-- Embedding of `CodeParser._infer_file_path_from_code`. -/
def infer_file_path_from_code (code : List Char) (language : List Char) :
    Option (List Char) :=
  if language = ("python").data then
    (pyClassScan (code.length + 1) true code).map
      (fun cls => toLowerChars cls ++ ((".py").data))
  else if language = ("javascript").data ∨ language = ("typescript").data then
    (jsClassScan (code.length + 1) code).map
      (fun cls => toLowerChars cls ++ ((".js").data))
  else none

/-- The language-to-extension table of `_generate_default_filename`. -/
def extensionsMap : List (String × String) :=
  [("python", ".py"), ("javascript", ".js"), ("typescript", ".ts"),
   ("java", ".java"), ("go", ".go"), ("rust", ".rs"), ("c", ".c"),
   ("cpp", ".cpp"), ("html", ".html"), ("css", ".css"), ("json", ".json"),
   ("yaml", ".yaml"), ("yml", ".yml")]

/-- Embedding of `CodeParser._generate_default_filename`: keyword-based
guesses over the lowered code, then an index-numbered fallback. -/
def generate_default_filename (code : List Char) (language : List Char)
    (index : Nat) : List Char :=
  let ext := (((extensionsMap.find? (fun p => p.1.data == language)).map
    (fun p => p.2.data)).getD ((".txt").data))
  let lower := toLowerChars code
  if containsSub (("binary_search").data) lower ||
      containsSub (("binary search").data) lower then
    (("binary_search").data) ++ ext
  else if containsSub (("main").data) lower then (("main").data) ++ ext
  else if containsSub (("utils").data) lower then (("utils").data) ++ ext
  else if containsSub (("test").data) lower then (("test").data) ++ ext
  else (("code_").data) ++ (Nat.repr (index + 1)).data ++ ext

/-- Embedding of `CodeParser._detect_operation_type`: keyword families over
the lowered preceding text (the `file_path` and `code` parameters are
accepted but unread, as in the source). -/
def detect_operation_type (text_before : List Char) (file_path : List Char)
    (code : List Char) : OperationType :=
  let text_lower := toLowerChars text_before
  let has := fun (words : List String) =>
    words.any (fun w => containsSub w.data text_lower)
  if has [("create"), ("new file"), ("add file"), ("write to")] then
    OperationType.CREATE
  else if has [("modify"), ("update"), ("change"), ("edit"), ("refactor")] then
    OperationType.MODIFY
  else if has [("delete"), ("remove")] then OperationType.DELETE
  else if has [("implement"), ("create"), ("add"), ("write")] then
    OperationType.CREATE
  else OperationType.CREATE

/-- Embedding of `FileOperation` (`utils/code_parser.py`). -/
structure FileOperation where
  op_type : OperationType
  file_path : List Char
  content : Option (List Char)
  line_start : Option Nat
  line_end : Option Nat
  language : Option (List Char)
deriving DecidableEq

/-- Embedding of `CodeParser._detect_operation_for_block`
(`utils/code_parser.py`, lines 106-139).  `text_before` is
`full_response.split(code_block)[0]` when the block occurs in the text and
`""` otherwise; a stripped-empty block makes `split("")` raise
`ValueError` (`"" in s` is always true), which is modelled as the error
branch. -/
def detect_operation_for_block (full_response code_block : List Char)
    (block_index : Nat) (language : List Char) : Except String FileOperation :=
  if code_block = [] then Except.error ("ValueError: empty separator")
  else
    let text_before := match prefixBeforeFirst code_block full_response with
      | some pre => pre
      | none => []
    let file_path :=
      match extract_file_path text_before with
      | some fp => fp
      | none =>
        match infer_file_path_from_code code_block language with
        | some fp => fp
        | none => generate_default_filename code_block language block_index
    Except.ok
      { op_type := detect_operation_type text_before file_path code_block
        file_path := file_path
        content := some code_block
        line_start := none
        line_end := none
        language := if language ≠ ("text").data then some language else none }

/-- Embedding of `CodeParser.parse_response` (`utils/code_parser.py`,
lines 50-71): extract the code blocks and derive one `FileOperation` per
block, in block order. -/
def parse_response (response_text : List Char) :
    Except String (List FileOperation) :=
  (extract_code_blocks response_text).enum.mapM
    (fun p => detect_operation_for_block response_text p.2.2 p.1 p.2.1)

/-- Fixture: the Scenario A text. -/
def scenarioAText : String := "File: foo.py\n```python\ndef f(): pass\n```"

/-- Fixture: a preceding text with a pattern-1 mention of `a.py` followed
by a later pattern-2 mention of `b.py`. -/
def c6Text : String := "File: a.py\ncreate file b.py\n"

/-- Fixture: the counterexample preceding text followed by a code block. -/
def c6FullText : String := "File: a.py\ncreate file b.py\n```python\nx = 1\n```"

/-- A minimal matcher for instantiating scanner lemmas: consume one
character and capture it. -/
def headMatcher : Bool → List Char → Option (List Char × List Char) :=
  fun _ s => match s with
  | c :: cs => some ([c], cs)
  | [] => none

/-- C1: for every non-empty agent list, `dispatch_all` succeeds and returns
exactly one response per agent, in agent order; slot `i` carries the name
and type of agent `i` (given that agents author their own successful
responses, as every agent implementation in `agents/` does); a slot is the
agent's successful result, or a failed response whose content carries the
error text and whose metadata marks the error; and slot `i` depends only on
agent `i`, so one agent's exception never removes or corrupts another
agent's slot. -/
theorem dispatch_all_spec (agents : List DispatchAgent)
    (hne : agents ≠ [])
    (hauth : ∀ a ∈ agents, ∀ r, a.queryResult = Except.ok r →
      r.agent_name = a.name ∧ r.agent_type = a.agent_type) :
    ∃ rs, dispatch_all agents = Except.ok rs ∧
      rs.length = agents.length ∧
      (∀ (i : Nat) (a : DispatchAgent), agents[i]? = some a →
        ∃ (r : AgentResponse), rs[i]? = some r ∧
          r.agent_name = a.name ∧ r.agent_type = a.agent_type ∧
          (∀ resp, a.queryResult = Except.ok resp → r = resp) ∧
          (∀ e, a.queryResult = Except.error e →
            r.content = "Error: " ++ e ∧ r.metadata = [(("error"), true)])) ∧
      (∀ (agents2 : List DispatchAgent) (rs2 : List AgentResponse)
        (i : Nat) (a : DispatchAgent), dispatch_all agents2 = Except.ok rs2 →
        agents[i]? = some a → agents2[i]? = some a →
        rs[i]? = rs2[i]?) := by
  refine ⟨agents.map dispatchOne, ?_, ?_, ?_, ?_⟩
  · simp [dispatch_all, hne]
  · simp
  · intro i a ha
    have hmem : a ∈ agents := by
      have := List.getElem?_eq_some.mp ha
      rcases this with ⟨hlt, hget⟩
      exact hget ▸ List.getElem_mem hlt
    refine ⟨dispatchOne a, by simp [List.getElem?_map, ha], ?_, ?_, ?_, ?_⟩
    · cases hq : a.queryResult with
      | ok r => simpa [dispatchOne, hq] using (hauth a hmem r hq).1
      | error e => simp [dispatchOne, hq]
    · cases hq : a.queryResult with
      | ok r => simpa [dispatchOne, hq] using (hauth a hmem r hq).2
      | error e => simp [dispatchOne, hq]
    · intro resp hq
      simp [dispatchOne, hq]
    · intro e hq
      simp [dispatchOne, hq]
  · intro agents2 rs2 i a h2 ha ha2
    have hne2 : ¬ agents2.isEmpty := by
      intro hemp
      simp [dispatch_all, hemp] at h2
    have hrs2 : rs2 = agents2.map dispatchOne := by
      simp [dispatch_all, hne2] at h2
      exact h2.symm
    subst hrs2
    simp [List.getElem?_map, ha, ha2]

/-- Concrete instance of `dispatch_all_spec`: two agents, the second one
raising an exception. -/
def wAgentOkResp : AgentResponse :=
  { agent_name := "claude", agent_type := "ClaudeAgent"
    content := "hello", metadata := [] }

/-- Two-agent roster for the dispatch witness: one succeeding agent and one
whose query raises. -/
def wAgents : List DispatchAgent :=
  [ { name := "claude", agent_type := "ClaudeAgent"
      queryResult := Except.ok wAgentOkResp }
  , { name := "gpt", agent_type := "OpenAIAgent"
      queryResult := Except.error ("boom") } ]

/-- Witness for C1 at a concrete two-agent roster. -/
theorem dispatch_all_spec_witness :
    ∃ rs, dispatch_all wAgents = Except.ok rs ∧
      rs.length = wAgents.length ∧
      (∀ (i : Nat) (a : DispatchAgent), wAgents[i]? = some a →
        ∃ (r : AgentResponse), rs[i]? = some r ∧
          r.agent_name = a.name ∧ r.agent_type = a.agent_type ∧
          (∀ resp, a.queryResult = Except.ok resp → r = resp) ∧
          (∀ e, a.queryResult = Except.error e →
            r.content = "Error: " ++ e ∧ r.metadata = [(("error"), true)])) ∧
      (∀ (agents2 : List DispatchAgent) (rs2 : List AgentResponse)
        (i : Nat) (a : DispatchAgent), dispatch_all agents2 = Except.ok rs2 →
        wAgents[i]? = some a → agents2[i]? = some a →
        rs[i]? = rs2[i]?) := by
  apply dispatch_all_spec wAgents (by simp [wAgents])
  intro a ha r hr
  simp [wAgents] at ha
  rcases ha with h | h <;> subst h
  · simp [wAgentOkResp] at hr
    subst hr
    exact ⟨rfl, rfl⟩
  · simp at hr

/-- C8: the diff statistics are the line-count-delta heuristic:
`lines_added = max 0 (newLineCount - oldLineCount)` and
`lines_removed = max 0 (oldLineCount - newLineCount)`; in particular,
replacing content by different content with the same number of lines
reports zero lines added and zero lines removed. -/
theorem calculate_stats_spec (old_content new_content : Option String) :
    (calculate_stats old_content new_content).lines_added =
      max 0 (((contentLines new_content).length : Int) -
        ((contentLines old_content).length : Int)) ∧
    (calculate_stats old_content new_content).lines_removed =
      max 0 (((contentLines old_content).length : Int) -
        ((contentLines new_content).length : Int)) ∧
    ((contentLines old_content).length = (contentLines new_content).length →
      (calculate_stats old_content new_content).lines_added = 0 ∧
      (calculate_stats old_content new_content).lines_removed = 0) := by
  refine ⟨rfl, rfl, ?_⟩
  intro h
  simp [calculate_stats, h]

/-- Witness for C8: replacing a two-line file by a different two-line file
reports zero added and zero removed lines. -/
theorem calculate_stats_spec_witness :
    (calculate_stats (some ("a\nb")) (some ("c\nd"))).lines_added = 0 ∧
    (calculate_stats (some ("a\nb")) (some ("c\nd"))).lines_removed = 0 :=
  (calculate_stats_spec (some ("a\nb")) (some ("c\nd"))).2.2 (by decide)

/-! ## Evaluator lemmas -/

theorem assignRanksFrom_length (k : Nat) (l : List EvaluationResult) :
    (assignRanksFrom k l).length = l.length := by
  induction l generalizing k with
  | nil => rfl
  | cons r rest ih => simp [assignRanksFrom, ih]

theorem assignRanksFrom_map_rank (k : Nat) (l : List EvaluationResult) :
    (assignRanksFrom k l).map (fun r => r.rank) = List.range' k l.length := by
  induction l generalizing k with
  | nil => rfl
  | cons r rest ih => simp [assignRanksFrom, ih, List.range'_succ]

theorem assignRanksFrom_erase (l : List EvaluationResult)
    (h : ∀ x ∈ l, x.rank = 0) (k : Nat) :
    (assignRanksFrom k l).map eraseRank = l := by
  induction l generalizing k with
  | nil => rfl
  | cons r rest ih =>
    have hr : r.rank = 0 := h r (by simp)
    have htail := ih (fun x hx => h x (by simp [hx])) (k + 1)
    simp only [assignRanksFrom, List.map_cons, htail]
    have : eraseRank { r with rank := k } = r := by
      cases r
      simp_all [eraseRank]
    rw [this]

theorem scoreLe_trans (a b c : EvaluationResult) :
    scoreLe a b → scoreLe b c → scoreLe a c := by
  simp only [scoreLe, decide_eq_true_eq]
  intro hab hbc
  exact le_trans hbc hab

theorem scoreLe_total (a b : EvaluationResult) :
    scoreLe a b || scoreLe b a := by
  simp only [scoreLe, Bool.or_eq_true, decide_eq_true_eq]
  exact le_total _ _

theorem calculate_results_rank_zero (responses : List AgentResponse)
    (m : List (List (String × ℚ))) :
    ∀ x ∈ calculate_results responses m, x.rank = 0 := by
  intro x hx
  rcases List.mem_map.mp hx with ⟨p, hp, rfl⟩
  rfl

theorem pair_get_sublist {α : Type _} (l : List α) (i j : Nat)
    (hi : i < l.length) (hj : j < l.length) (hij : i < j) :
    [l.get ⟨i, hi⟩, l.get ⟨j, hj⟩].Sublist l := by
  induction l generalizing i j with
  | nil => exact absurd hi (by simp)
  | cons x xs ih =>
    simp only [List.length_cons] at hi hj
    cases j with
    | zero => omega
    | succ j2 =>
      cases i with
      | zero =>
        exact List.Sublist.cons₂ x
          (List.singleton_sublist.mpr (List.get_mem xs _ _))
      | succ i2 =>
        exact List.Sublist.cons x (ih i2 j2 (by omega) (by omega) (by omega))

/-- C2: for every non-empty response list, `evaluate_responses` returns one
result per response; the rank fields along the output are exactly
`1, 2, ..., N` (hence the permutation of `{1..N}` with no duplicates or
gaps); the output is sorted by average score descending (so ranks are
non-increasing in average score); and for two inputs with equal average
score, the earlier (first-seen) one stays earlier in the ranked output —
the stable-sort tie rule. -/
theorem evaluate_responses_spec (prompt : String) (agents : List EvalAgent)
    (responses : List AgentResponse) (hne : responses ≠ []) :
    (evaluate_responses prompt agents responses).length = responses.length ∧
    (evaluate_responses prompt agents responses).map (fun r => r.rank) =
      List.range' 1 responses.length ∧
    (evaluate_responses prompt agents responses).Pairwise
      (fun a b => b.average_score ≤ a.average_score) ∧
    (∀ (i j : Fin (baseResults prompt agents responses).length),
      (i : ℕ) < (j : ℕ) →
      ((baseResults prompt agents responses).get i).average_score =
        ((baseResults prompt agents responses).get j).average_score →
      [(baseResults prompt agents responses).get i,
        (baseResults prompt agents responses).get j].Sublist
        ((evaluate_responses prompt agents responses).map eraseRank)) := by
  match responses, hne with
  | [r], _ =>
    refine ⟨rfl, rfl, ?_, ?_⟩
    · exact List.pairwise_singleton _ _
    · intro i j hij heq
      have hlen1 : (baseResults prompt agents [r]).length = 1 := by
        simp [baseResults, calculate_results]
      have hi := i.isLt
      have hj := j.isLt
      omega
  | r1 :: r2 :: rest, _ =>
    have hbase0 : ∀ x ∈ baseResults prompt agents (r1 :: r2 :: rest), x.rank = 0 :=
      calculate_results_rank_zero _ _
    have hev : evaluate_responses prompt agents (r1 :: r2 :: rest) =
        assignRanksFrom 1
          ((baseResults prompt agents (r1 :: r2 :: rest)).mergeSort scoreLe) := rfl
    have hs0 : ∀ x ∈ (baseResults prompt agents (r1 :: r2 :: rest)).mergeSort scoreLe,
        x.rank = 0 := by
      intro x hx
      exact hbase0 x (List.mem_mergeSort.mp hx)
    have herase : (evaluate_responses prompt agents (r1 :: r2 :: rest)).map eraseRank =
        (baseResults prompt agents (r1 :: r2 :: rest)).mergeSort scoreLe := by
      rw [hev]
      exact assignRanksFrom_erase _ hs0 1
    have hlen : (evaluate_responses prompt agents (r1 :: r2 :: rest)).length =
        (r1 :: r2 :: rest).length := by
      rw [hev, assignRanksFrom_length, List.length_mergeSort]
      simp [baseResults, calculate_results]
    refine ⟨hlen, ?_, ?_, ?_⟩
    · rw [hev, assignRanksFrom_map_rank, List.length_mergeSort]
      simp [baseResults, calculate_results]
    · have hp := List.sorted_mergeSort scoreLe_trans scoreLe_total
        (baseResults prompt agents (r1 :: r2 :: rest))
      rw [← herase] at hp
      have := List.pairwise_map.mp hp
      refine this.imp ?_
      intro a b h
      simpa [scoreLe, eraseRank] using h
    · intro i j hij heq
      have hsub := pair_get_sublist (baseResults prompt agents (r1 :: r2 :: rest))
        i j i.isLt j.isLt hij
      have hle : scoreLe ((baseResults prompt agents (r1 :: r2 :: rest)).get i)
          ((baseResults prompt agents (r1 :: r2 :: rest)).get j) = true := by
        simp only [scoreLe, decide_eq_true_eq, List.get_eq_getElem] at heq ⊢
        exact le_of_eq heq.symm
      have hres := List.pair_sublist_mergeSort scoreLe_trans scoreLe_total hle hsub
      rw [herase]
      exact hres

/-- Witness for C2: two responses scored by one evaluator (bob low, carol
high) give two results with rank fields `[1, 2]`. -/
theorem evaluate_responses_spec_witness :
    (evaluate_responses wPrompt [wEvalAgent] [wRespBob, wRespCarol]).length = 2 ∧
    (evaluate_responses wPrompt [wEvalAgent] [wRespBob, wRespCarol]).map
      (fun r => r.rank) = [1, 2] := by
  have h := evaluate_responses_spec wPrompt [wEvalAgent] [wRespBob, wRespCarol]
    (by simp)
  exact ⟨h.1, by simpa using h.2.1⟩

/-! ## Matrix cell characterization (C5) -/

theorem dictSet_append (d : List (String × ℚ)) (k : String) (v : ℚ)
    (h : ∀ p ∈ d, p.1 ≠ k) :
    dictSet d k v = d ++ [(k, v)] := by
  have hany : d.any (fun p => p.1 == k) = false := by
    simp only [List.any_eq_false, beq_iff_eq]
    exact h
  simp [dictSet, hany]

theorem matrixRow_foldl (prompt : String) (resp : AgentResponse)
    (others : List AgentResponse) :
    ∀ (agents : List EvalAgent) (acc : List (String × ℚ)),
      (agents.map (fun a => a.name)).Nodup →
      (∀ a ∈ agents, ∀ p ∈ acc, p.1 ≠ a.name) →
      agents.foldl
        (fun row agent =>
          if toLowerStr agent.name == toLowerStr resp.agent_name then row
          else dictSet row agent.name (matrixCell prompt resp others agent))
        acc =
      acc ++ (agents.filter (fun a =>
        ! (toLowerStr a.name == toLowerStr resp.agent_name))).map
          (fun a => (a.name, matrixCell prompt resp others a)) := by
  intro agents
  induction agents with
  | nil => intro acc _ _; simp
  | cons a as ih =>
    intro acc hnd hdisj
    have hndtail : (as.map (fun a => a.name)).Nodup := by
      simp only [List.map_cons, List.nodup_cons] at hnd
      exact hnd.2
    have hhead : ∀ a2 ∈ as, a.name ≠ a2.name := by
      intro a2 ha2 hcontra
      have : a.name ∈ as.map (fun x => x.name) :=
        List.mem_map.mpr ⟨a2, ha2, hcontra.symm⟩
      simp only [List.map_cons, List.nodup_cons] at hnd
      exact hnd.1 this
    by_cases hskip : (toLowerStr a.name == toLowerStr resp.agent_name) = true
    · have hdrop : ¬ ((! (toLowerStr a.name == toLowerStr resp.agent_name)) = true) := by
        simp [hskip]
      rw [List.foldl_cons, if_pos hskip, List.filter_cons, if_neg hdrop]
      exact ih acc hndtail (fun a2 ha2 => hdisj a2 (List.mem_cons_of_mem a ha2))
    · have hkeep : (! (toLowerStr a.name == toLowerStr resp.agent_name)) = true := by
        simp only [Bool.not_eq_true] at hskip
        simp [hskip]
      rw [List.foldl_cons, if_neg hskip, List.filter_cons, if_pos hkeep]
      rw [dictSet_append acc a.name (matrixCell prompt resp others a)
        (hdisj a (List.mem_cons_self a as))]
      rw [ih (acc ++ [(a.name, matrixCell prompt resp others a)]) hndtail ?_]
      · simp [List.append_assoc]
      · intro a2 ha2 p hp
        rcases List.mem_append.mp hp with hacc | hnew
        · exact hdisj a2 (List.mem_cons_of_mem a ha2) p hacc
        · have hpv : p = (a.name, matrixCell prompt resp others a) := by
            simpa using hnew
          rw [hpv]
          exact hhead a2 ha2

/-- C5 counterexample: the repository does not substitute the neutral score
`50.0` for an out-of-range evaluation result.  An evaluator whose model
call outputs the numeric but out-of-range text `"150"` has the score
clamped by the agent-side extraction to `100`, and `100` — not `50` — is
recorded in the matrix cell. -/
theorem matrix_out_of_range_counterexample :
    pyFloatDigitsDots ((("150") : String).data.filter
      (fun c => c.isDigit || c = ('.'))) = some ((150 : ℚ)) ∧
    ¬ ((150 : ℚ) ≤ 100) ∧
    scoreFromOutput (Except.ok ("150")) = 100 ∧
    create_evaluation_matrix wPrompt [c5Agent] [wRespBob, wRespCarol] =
      [[(("alice"), (100 : ℚ))], [(("alice"), (100 : ℚ))]] ∧
    (100 : ℚ) ≠ (50 : ℚ) := by
  refine ⟨by decide, by norm_num, by decide, by decide, by norm_num⟩

/-- C5 amended: during matrix construction every (candidate, evaluator)
pair with the evaluator distinct (case-insensitively) from the candidate's
author gets exactly one recorded cell, equal to the evaluator's returned
score, with the neutral `50.0` substituted when the `evaluate` call raises;
the matrix always has one row per response (construction never fails); and
the repository's agent-side score extraction yields `50.0` for a failed
call or non-numeric output, while a numeric result is clamped into
`[0, 100]` (an out-of-range value becomes a bound, not `50.0`). -/
theorem create_evaluation_matrix_amended (prompt : String)
    (agents : List EvalAgent) (responses : List AgentResponse)
    (hnodup : (agents.map (fun a => a.name)).Nodup) :
    (create_evaluation_matrix prompt agents responses).length =
      responses.length ∧
    (∀ (i : Nat) (resp : AgentResponse), responses[i]? = some resp →
      (create_evaluation_matrix prompt agents responses)[i]? =
        some ((agents.filter (fun a =>
          ! (toLowerStr a.name == toLowerStr resp.agent_name))).map
            (fun a => (a.name, matrixCell prompt resp (othersFor responses i) a)))) ∧
    (∀ (agent : EvalAgent) (prompt2 : String) (resp : AgentResponse)
      (others : List AgentResponse) (e : String),
      agent.evaluate prompt2 resp others = Except.error e →
      matrixCell prompt2 resp others agent = 50) ∧
    (∀ e, scoreFromOutput (Except.error e) = 50) ∧
    (∀ txt, pyFloatDigitsDots (txt.data.filter
        (fun c => c.isDigit || c = ('.'))) = none →
      scoreFromOutput (Except.ok txt) = 50) ∧
    (∀ txt x, pyFloatDigitsDots (txt.data.filter
        (fun c => c.isDigit || c = ('.'))) = some x →
      scoreFromOutput (Except.ok txt) = max 0 (min 100 x)) ∧
    (∀ raw, 0 ≤ scoreFromOutput raw ∧ scoreFromOutput raw ≤ 100) := by
  refine ⟨by simp [create_evaluation_matrix], ?_, ?_, ?_, ?_, ?_, ?_⟩
  · intro i resp hresp
    have henum : (responses.enum)[i]? = some (i, resp) := by
      simp [List.enum, List.getElem?_enumFrom, hresp]
    have hrow := matrixRow_foldl prompt resp (othersFor responses i) agents []
      hnodup (by simp)
    have hrow2 : matrixRow prompt agents resp (othersFor responses i) =
        (agents.filter (fun a =>
          ! (toLowerStr a.name == toLowerStr resp.agent_name))).map
            (fun a => (a.name, matrixCell prompt resp (othersFor responses i) a)) := by
      simpa [matrixRow] using hrow
    simp [create_evaluation_matrix, List.getElem?_map, henum, hrow2]
  · intro agent prompt2 resp others e he
    simp [matrixCell, he]
  · intro e
    rfl
  · intro txt h
    simp [scoreFromOutput, h]
  · intro txt x h
    simp [scoreFromOutput, h]
  · intro raw
    cases raw with
    | error e =>
      constructor
      · show (0 : ℚ) ≤ 50
        norm_num
      · show (50 : ℚ) ≤ 100
        norm_num
    | ok txt =>
      simp only [scoreFromOutput]
      cases hp : pyFloatDigitsDots (txt.data.filter
          (fun c => c.isDigit || c = ('.'))) with
      | none =>
        constructor
        · show (0 : ℚ) ≤ 50
          norm_num
        · show (50 : ℚ) ≤ 100
          norm_num
      | some x =>
        constructor
        · show (0 : ℚ) ≤ max 0 (min 100 x)
          exact le_max_left 0 _
        · show max 0 (min 100 x) ≤ 100
          exact max_le (by norm_num) (min_le_left 100 x)

/-- Witness for the amended C5 at a one-agent roster: the single row-0 cell
is the clamped out-of-range score recorded under the evaluator's name. -/
theorem create_evaluation_matrix_amended_witness :
    (create_evaluation_matrix wPrompt [c5Agent] [wRespBob, wRespCarol])[0]? =
      some (([c5Agent].filter (fun a =>
        ! (toLowerStr a.name == toLowerStr wRespBob.agent_name))).map
          (fun a => (a.name,
            matrixCell wPrompt wRespBob (othersFor [wRespBob, wRespCarol] 0) a))) :=
  (create_evaluation_matrix_amended wPrompt [c5Agent] [wRespBob, wRespCarol]
    (by simp)).2.1 0 wRespBob (by rfl)

/-! ## Backup lemmas (C4, C9) -/

theorem alGet_alSet_self {α : Type} (m : List (String × α)) (k : String) (v : α) :
    alGet (alSet m k v) k = some v := by
  by_cases hany : m.any (fun p => p.1 == k) = true
  · have hcomp : ((fun (p : String × α) => p.1 == k) ∘
        (fun (p : String × α) => if p.1 == k then (k, v) else p)) =
        (fun (p : String × α) => p.1 == k) := by
      funext p
      by_cases hpk : (p.1 == k) = true
      · have hpk2 : p.1 = k := by simpa using hpk
        simp [Function.comp, hpk2]
      · have hpk2 : ¬ p.1 = k := by simpa using hpk
        simp [Function.comp, hpk2]
    simp only [alSet, hany, if_true, alGet, List.find?_map, hcomp]
    obtain ⟨q, hq⟩ : ∃ q, m.find? (fun p => p.1 == k) = some q := by
      have hsome : (m.find? (fun p => p.1 == k)).isSome := by
        rw [List.find?_isSome]
        simpa [List.any_eq_true] using hany
      exact Option.isSome_iff_exists.mp hsome
    have hqk2 : q.1 = k := by simpa using List.find?_some hq
    simp [hq, hqk2]
  · simp only [Bool.not_eq_true] at hany
    have hnone : m.find? (fun p => p.1 == k) = none := by
      rw [List.find?_eq_none]
      intro p hp
      have := List.any_eq_false.mp hany p hp
      simpa using this
    simp only [alSet, hany, Bool.false_eq_true, if_false, alGet, List.find?_append, hnone]
    simp

theorem restore_fold_spec (bd : BackupDir) (fp : Option (List String)) :
    ∀ (entries : List ManifestEntry) (acc : RestoreResult × List (String × String)),
      (entries.foldl (restoreStep bd fp) acc).1.restored =
        acc.1.restored ++ (entries.filter (fun e =>
          (!(skipEntry fp e.original_path)) &&
            (alGet bd.files e.backup_path).isSome)).map
              (fun e => e.original_path) ∧
      (entries.foldl (restoreStep bd fp) acc).1.failed =
        acc.1.failed ++ (entries.filter (fun e =>
          (!(skipEntry fp e.original_path)) &&
            (alGet bd.files e.backup_path).isNone)).map
              (fun e => (e.original_path, ("copy failed"))) := by
  intro entries
  induction entries with
  | nil => intro acc; simp
  | cons e es ih =>
    intro acc
    by_cases hskip : skipEntry fp e.original_path = true
    · have hstep : restoreStep bd fp acc e = acc := by
        simp [restoreStep, hskip]
      simp only [List.foldl_cons, hstep, List.filter_cons, hskip]
      simpa using ih acc
    · have hskip2 : skipEntry fp e.original_path = false := by
        simpa using hskip
      cases hbf : alGet bd.files e.backup_path with
      | some content =>
        have hstep : restoreStep bd fp acc e =
            ({ acc.1 with restored := acc.1.restored ++ [e.original_path] },
              alSet acc.2 e.original_path content) := by
          simp [restoreStep, hskip2, hbf]
        simp only [List.foldl_cons, hstep, List.filter_cons, hskip2, hbf]
        have := ih ({ acc.1 with restored := acc.1.restored ++ [e.original_path] },
          alSet acc.2 e.original_path content)
        simp only [this.1, this.2]
        simp
      | none =>
        have hstep : restoreStep bd fp acc e =
            ({ acc.1 with failed :=
                acc.1.failed ++ [(e.original_path, ("copy failed"))] }, acc.2) := by
          simp [restoreStep, hskip2, hbf]
        simp only [List.foldl_cons, hstep, List.filter_cons, hskip2, hbf]
        have := ih ({ acc.1 with failed :=
          acc.1.failed ++ [(e.original_path, ("copy failed"))] }, acc.2)
        simp only [this.1, this.2]
        simp

/-- C4: backup round-trip.  For any working state in which file `f` has
content `c`, create a backup of `[f]`, then replace the working directory
by an arbitrarily mutated one (including with `f` altered or deleted);
restoring the returned snapshot succeeds and puts content `c` back at `f`. -/
theorem backup_restore_roundtrip (st : BackupState) (ts f c : String)
    (hread : alGet st.working f = some c) :
    ∀ (w2 : List (String × String)),
      ∃ res st3,
        restore_backup
          { working := w2, backups := (create_backup st ts [f]).1.backups }
          (create_backup st ts [f]).2 none = Except.ok (res, st3) ∧
        alGet st3.working f = some c ∧
        f ∈ res.restored := by
  intro w2
  have hname : (create_backup st ts [f]).2 = "backup_" ++ ts := rfl
  have hbd : (create_backup st ts [f]).1.backups =
      alSet st.backups ("backup_" ++ ts) (singleBackupDir st ts f c) := by
    simp [create_backup, singleBackupDir, hread]
  refine ⟨{ restored := [f], failed := [] },
    { working := alSet w2 f c,
      backups := (create_backup st ts [f]).1.backups }, ?_, ?_, ?_⟩
  · rw [hname, hbd]
    simp only [restore_backup, alGet_alSet_self]
    simp only [singleBackupDir, List.foldl_cons, List.foldl_nil, restoreStep,
      skipEntry, Bool.false_eq_true, if_false, alGet_alSet_self]
    rfl
  · exact alGet_alSet_self w2 f c
  · simp

/-- Witness for C4: one file with content `"old"`, working directory
emptied after the backup, restore brings the content back. -/
theorem backup_restore_roundtrip_witness :
    ∃ res st3,
      restore_backup
        { working := [], backups := (create_backup wC4State ("t1") [("a.txt")]).1.backups }
        (create_backup wC4State ("t1") [("a.txt")]).2 none = Except.ok (res, st3) ∧
      alGet st3.working ("a.txt") = some ("old") ∧
      ("a.txt") ∈ res.restored :=
  backup_restore_roundtrip wC4State ("t1") ("a.txt") ("old") (by decide) []

/-- C9: the subset filter of `restore_backup`.  An empty filter list
behaves exactly like no filter (nothing is skipped — every manifest entry
is restored), and a non-empty filter keeps exactly the manifest entries
whose original path is in the list; on success the restored and failed
lists are exactly the non-skipped manifest entries, split by whether the
stored copy is present. -/
theorem restore_backup_filter_spec (st : BackupState) (backup_name : String) :
    restore_backup st backup_name (some []) = restore_backup st backup_name none ∧
    (∀ orig, skipEntry (some []) orig = false ∧ skipEntry none orig = false) ∧
    (∀ (l : List String) (orig : String), l ≠ [] →
      (skipEntry (some l) orig = false ↔ orig ∈ l)) ∧
    (∀ (bd : BackupDir) (m : Manifest) (fp : Option (List String))
      (res : RestoreResult) (st3 : BackupState),
      alGet st.backups backup_name = some bd →
      bd.manifest = some m →
      restore_backup st backup_name fp = Except.ok (res, st3) →
      res.restored = (m.files.filter (fun e =>
        (!(skipEntry fp e.original_path)) &&
          (alGet bd.files e.backup_path).isSome)).map
            (fun e => e.original_path) ∧
      res.failed = (m.files.filter (fun e =>
        (!(skipEntry fp e.original_path)) &&
          (alGet bd.files e.backup_path).isNone)).map
            (fun e => (e.original_path, ("copy failed")))) := by
  refine ⟨?_, ?_, ?_, ?_⟩
  · have hstep : ∀ bd : BackupDir, restoreStep bd (some []) = restoreStep bd none := by
      intro bd
      funext acc e
      simp [restoreStep, skipEntry]
    cases halg : alGet st.backups backup_name with
    | none => simp [restore_backup, halg]
    | some bd =>
      cases hman : bd.manifest with
      | none => simp [restore_backup, halg, hman]
      | some m =>
        simp only [restore_backup, halg, hman]
        rw [hstep bd]
  · intro orig
    exact ⟨rfl, rfl⟩
  · intro l orig hl
    have : l.isEmpty = false := by
      cases l with
      | nil => exact absurd rfl hl
      | cons x xs => rfl
    simp [skipEntry, this]
  · intro bd m fp res st3 hbd hm hok
    have hfold := restore_fold_spec bd fp m.files
      ({ restored := [], failed := [] }, st.working)
    simp only [restore_backup, hbd, hm] at hok
    have hres : res = (m.files.foldl (restoreStep bd fp)
        ({ restored := [], failed := [] }, st.working)).1 := by
      cases hok
      rfl
    rw [hres]
    exact ⟨by simpa using hfold.1, by simpa using hfold.2⟩

/-- Witness for C9: restoring with the empty filter list restores the
single manifest entry of the fixture snapshot. -/
theorem restore_backup_filter_spec_witness :
    restore_backup wBackupState ("backup_t") (some []) =
      restore_backup wBackupState ("backup_t") none ∧
    ({ restored := [("a.txt")], failed := [] } : RestoreResult).restored =
      (wManifest.files.filter (fun e =>
        (!(skipEntry (some []) e.original_path)) &&
          (alGet wBackupDir.files e.backup_path).isSome)).map
            (fun e => e.original_path) := by
  have h := restore_backup_filter_spec wBackupState ("backup_t")
  refine ⟨h.1, ?_⟩
  have h4 := h.2.2.2 wBackupDir wManifest (some [])
    { restored := [("a.txt")], failed := [] }
    { working := [(("a.txt"), ("old"))], backups := wBackupState.backups }
    (by decide) (by decide) (by rfl)
  exact h4.1

/-! ## Apply lemmas (C7, C10) -/

theorem alGet_alSet_ne {α : Type} (m : List (String × α)) (k k2 : String) (v : α)
    (h : k ≠ k2) : alGet (alSet m k v) k2 = alGet m k2 := by
  by_cases hany : m.any (fun p => p.1 == k) = true
  · have hcomp : ((fun (p : String × α) => p.1 == k2) ∘
        (fun (p : String × α) => if p.1 == k then (k, v) else p)) =
        (fun (p : String × α) => p.1 == k2) := by
      funext p
      by_cases hpk : (p.1 == k) = true
      · have hpk2 : p.1 = k := by simpa using hpk
        simp [Function.comp, hpk2]
      · have hpk2 : ¬ p.1 = k := by simpa using hpk
        simp [Function.comp, hpk2]
    simp only [alSet, hany, if_true, alGet, List.find?_map, hcomp]
    cases hf : m.find? (fun p => p.1 == k2) with
    | none => simp
    | some q =>
      have hq2 : q.1 = k2 := by simpa using List.find?_some hf
      have hnq : ¬ q.1 = k := by
        rw [hq2]
        exact fun hc => h hc.symm
      simp [hnq]
  · simp only [Bool.not_eq_true] at hany
    have hkk : (k == k2) = false := beq_eq_false_iff_ne.mpr h
    have hlast : List.find? (fun (p : String × α) => p.1 == k2) [(k, v)] = none := by
      simp [List.find?_cons, hkk]
    simp only [alSet, hany, Bool.false_eq_true, if_false, alGet, List.find?_append, hlast]
    simp

theorem apply_fold_spec (ioErr : FileDiff → Option String) :
    ∀ (diffs : List FileDiff) (acc : ApplyResult × ApplyFS),
      (diffs.foldl (applyStep false ioErr) acc).1.failed =
        acc.1.failed ++ diffs.filterMap
          (fun d => (ioErr d).map (fun e => (d.file_path, e))) ∧
      (diffs.foldl (applyStep false ioErr) acc).1.success.length +
        (diffs.foldl (applyStep false ioErr) acc).1.failed.length +
        (diffs.foldl (applyStep false ioErr) acc).1.skipped.length =
        acc.1.success.length + acc.1.failed.length + acc.1.skipped.length +
          diffs.length := by
  intro diffs
  induction diffs with
  | nil => intro acc; simp
  | cons d ds ih =>
    intro acc
    cases herr : ioErr d with
    | some e =>
      have hstep : applyStep false ioErr acc d =
          ({ acc.1 with failed := acc.1.failed ++ [(d.file_path, e)] }, acc.2) := by
        simp [applyStep, herr]
      rw [List.foldl_cons, hstep]
      have := ih ({ acc.1 with failed := acc.1.failed ++ [(d.file_path, e)] }, acc.2)
      refine ⟨?_, ?_⟩
      · rw [this.1]
        simp [List.filterMap_cons, herr]
      · rw [this.2]
        simp
        omega
    | none =>
      have hnext : ∃ acc2 : ApplyResult × ApplyFS,
          applyStep false ioErr acc d = acc2 ∧
          acc2.1.failed = acc.1.failed ∧
          acc2.1.success.length + acc2.1.skipped.length =
            acc.1.success.length + acc.1.skipped.length + 1 := by
        by_cases hdel : d.operation = OperationType.DELETE
        · by_cases hex : (alGet (mkdirParents acc.2 d.file_path).files
              d.file_path).isSome = true
          · refine ⟨_, rfl, ?_, ?_⟩ <;>
              simp [applyStep, herr, hdel, hex] <;> omega
          · have hex2 : (alGet (mkdirParents acc.2 d.file_path).files
                d.file_path).isSome = false := by simpa using hex
            refine ⟨_, rfl, ?_, ?_⟩ <;>
              simp [applyStep, herr, hdel, hex2] <;> omega
        · refine ⟨_, rfl, ?_, ?_⟩ <;>
            simp [applyStep, herr, hdel] <;> omega
      obtain ⟨acc2, hstep, hfail, hcount⟩ := hnext
      rw [List.foldl_cons, hstep]
      have := ih acc2
      refine ⟨?_, ?_⟩
      · rw [this.1, hfail]
        simp [List.filterMap_cons, herr]
      · rw [this.2, hfail]
        simp
        omega

/-- C7: applying one Create diff followed by one Delete diff whose target
does not exist succeeds with exactly the created path, skips exactly the
deleted path, and fails nothing; and in general a per-diff I/O exception is
caught and recorded in `failed` (exactly the oracle-failing diffs, with
their error text) without aborting the remaining diffs — every diff still
lands in exactly one of the three result lists. -/
theorem apply_changes_spec (fs : ApplyFS) (p1 p2 c : String) (d1 d2 : FileDiff)
    (h1op : d1.operation = OperationType.CREATE) (h1p : d1.file_path = p1)
    (h1c : d1.new_content = some c)
    (h2op : d2.operation = OperationType.DELETE) (h2p : d2.file_path = p2)
    (hne : p1 ≠ p2) (habsent : alGet fs.files p2 = none) :
    ((apply_changes fs [d1, d2] false noErr).1.success = [p1] ∧
      (apply_changes fs [d1, d2] false noErr).1.skipped = [p2] ∧
      (apply_changes fs [d1, d2] false noErr).1.failed = []) ∧
    (∀ (diffs : List FileDiff) (ioErr : FileDiff → Option String) (fs0 : ApplyFS),
      (apply_changes fs0 diffs false ioErr).1.failed =
        diffs.filterMap (fun d => (ioErr d).map (fun e => (d.file_path, e))) ∧
      (apply_changes fs0 diffs false ioErr).1.success.length +
        (apply_changes fs0 diffs false ioErr).1.failed.length +
        (apply_changes fs0 diffs false ioErr).1.skipped.length = diffs.length) := by
  constructor
  · have hd1ne : ¬ d1.operation = OperationType.DELETE := by
      rw [h1op]
      intro hc
      cases hc
    have hstep1 : applyStep false noErr
        ({ success := [], failed := [], skipped := [] }, fs) d1 =
        ({ success := [d1.file_path], failed := [], skipped := [] },
          { mkdirParents fs d1.file_path with
            files := alSet (mkdirParents fs d1.file_path).files d1.file_path
              (d1.new_content.getD "") }) := by
      simp [applyStep, noErr, hd1ne]
    have habsent2 : alGet (alSet fs.files d1.file_path
        (d1.new_content.getD "")) d2.file_path = none := by
      have h3 := alGet_alSet_ne fs.files
        d1.file_path d2.file_path (d1.new_content.getD "")
        (by rw [h1p, h2p]; exact hne)
      rw [h3, h2p]
      exact habsent
    have hstep2 : applyStep false noErr
        ({ success := [d1.file_path], failed := [], skipped := [] },
          { mkdirParents fs d1.file_path with
            files := alSet (mkdirParents fs d1.file_path).files d1.file_path
              (d1.new_content.getD "") }) d2 =
        ({ success := [d1.file_path], failed := [], skipped := [d2.file_path] },
          mkdirParents
            { mkdirParents fs d1.file_path with
              files := alSet (mkdirParents fs d1.file_path).files d1.file_path
                (d1.new_content.getD "") } d2.file_path) := by
      simp [applyStep, noErr, h2op, mkdirParents, habsent2]
    have hev : apply_changes fs [d1, d2] false noErr =
        ({ success := [d1.file_path], failed := [], skipped := [d2.file_path] },
          mkdirParents
            { mkdirParents fs d1.file_path with
              files := alSet (mkdirParents fs d1.file_path).files d1.file_path
                (d1.new_content.getD "") } d2.file_path) := by
      simp only [apply_changes, List.foldl_cons, List.foldl_nil, hstep1, hstep2]
    refine ⟨by rw [hev, h1p], by rw [hev, h2p], by rw [hev]⟩
  · intro diffs ioErr fs0
    have h := apply_fold_spec ioErr diffs
      ({ success := [], failed := [], skipped := [] }, fs0)
    refine ⟨by simpa using h.1, by simpa using h.2⟩

/-- Witness for C7 on the empty filesystem: create `a.txt`, delete the
absent `b.txt`. -/
theorem apply_changes_spec_witness :
    ((apply_changes wEmptyFS [wCreateDiff, wDeleteDiff] false noErr).1.success =
        [("a.txt")] ∧
      (apply_changes wEmptyFS [wCreateDiff, wDeleteDiff] false noErr).1.skipped =
        [("b.txt")] ∧
      (apply_changes wEmptyFS [wCreateDiff, wDeleteDiff] false noErr).1.failed = []) ∧
    (∀ (diffs : List FileDiff) (ioErr : FileDiff → Option String) (fs0 : ApplyFS),
      (apply_changes fs0 diffs false ioErr).1.failed =
        diffs.filterMap (fun d => (ioErr d).map (fun e => (d.file_path, e))) ∧
      (apply_changes fs0 diffs false ioErr).1.success.length +
        (apply_changes fs0 diffs false ioErr).1.failed.length +
        (apply_changes fs0 diffs false ioErr).1.skipped.length = diffs.length) :=
  apply_changes_spec wEmptyFS ("a.txt") ("b.txt") ("hi") wCreateDiff wDeleteDiff
    (by rfl) (by rfl) (by rfl) (by rfl) (by rfl) (by decide) (by rfl)

/-- C10: in non-dry-run mode, `apply_changes` creates the target's parent
directories before examining the operation type: a Delete of an absent
file is reported as skipped and leaves the file map untouched, yet every
(previously missing) ancestor of the target's parent directory now exists. -/
theorem apply_changes_delete_mkdir (fs : ApplyFS) (d : FileDiff)
    (hop : d.operation = OperationType.DELETE)
    (habsent : alGet fs.files d.file_path = none) :
    (apply_changes fs [d] false noErr).1.skipped = [d.file_path] ∧
    (apply_changes fs [d] false noErr).1.success = [] ∧
    (apply_changes fs [d] false noErr).1.failed = [] ∧
    (apply_changes fs [d] false noErr).2.files = fs.files ∧
    (∀ q ∈ pathPrefixes (pathComponents d.file_path).dropLast,
      q ∈ (apply_changes fs [d] false noErr).2.dirs) := by
  have habsent2 : alGet (mkdirParents fs d.file_path).files d.file_path = none :=
    habsent
  have hstep : applyStep false noErr
      ({ success := [], failed := [], skipped := [] }, fs) d =
      ({ success := [], failed := [], skipped := [d.file_path] },
        mkdirParents fs d.file_path) := by
    simp [applyStep, noErr, hop, habsent2]
  have hev : apply_changes fs [d] false noErr =
      ({ success := [], failed := [], skipped := [d.file_path] },
        mkdirParents fs d.file_path) := by
    simp only [apply_changes, List.foldl_cons, List.foldl_nil, hstep]
  rw [hev]
  refine ⟨rfl, rfl, rfl, rfl, ?_⟩
  intro q hq
  simp only [mkdirParents]
  exact List.mem_append.mpr (Or.inr hq)

/-- Witness for C10: deleting the absent `sub/dir/b.txt` on the empty
filesystem is skipped but creates directories `sub` and `sub/dir`. -/
theorem apply_changes_delete_mkdir_witness :
    (apply_changes wEmptyFS [wDeepDeleteDiff] false noErr).1.skipped =
      [("sub/dir/b.txt")] ∧
    ([("sub")] : List String) ∈
      (apply_changes wEmptyFS [wDeepDeleteDiff] false noErr).2.dirs ∧
    ([("sub"), ("dir")] : List String) ∈
      (apply_changes wEmptyFS [wDeepDeleteDiff] false noErr).2.dirs := by
  have h := apply_changes_delete_mkdir wEmptyFS wDeepDeleteDiff (by rfl) (by rfl)
  refine ⟨h.1, ?_, ?_⟩
  · exact h.2.2.2.2 ([("sub")]) (by decide)
  · exact h.2.2.2.2 ([("sub"), ("dir")]) (by decide)

/-! ## Parser theorems (C3, C6) -/

theorem scanMatches_lb (matchAt : Bool → List Char → Option (List Char × List Char)) :
    ∀ (fuel pos : Nat) (atLS : Bool) (s : List Char),
      ∀ m ∈ scanMatches matchAt fuel pos atLS s, pos ≤ m.1 := by
  intro fuel
  induction fuel with
  | zero => intro pos atLS s m hm; simp [scanMatches] at hm
  | succ fuel ih =>
    intro pos atLS s m hm
    cases s with
    | nil => simp [scanMatches] at hm
    | cons c cs =>
      rw [scanMatches] at hm
      revert hm
      cases hmat : matchAt atLS (c :: cs) with
      | none =>
        intro hm
        have := ih (pos + 1) (c == ('\n')) cs m hm
        omega
      | some res =>
        obtain ⟨cap, rest⟩ := res
        intro hm
        rcases List.mem_cons.mp hm with hm2 | hm2
        · simp [hm2]
        · have := ih _ _ _ m hm2
          omega

theorem scanMatches_sorted (matchAt : Bool → List Char → Option (List Char × List Char))
    (hprog : ∀ (b : Bool) (s : List Char) (cap rest : List Char),
      matchAt b s = some (cap, rest) → rest.length < s.length) :
    ∀ (fuel pos : Nat) (atLS : Bool) (s : List Char),
      (scanMatches matchAt fuel pos atLS s).Pairwise (fun a b => a.1 < b.1) := by
  intro fuel
  induction fuel with
  | zero => intro pos atLS s; simp [scanMatches]
  | succ fuel ih =>
    intro pos atLS s
    cases s with
    | nil => simp [scanMatches]
    | cons c cs =>
      rw [scanMatches]
      cases hmat : matchAt atLS (c :: cs) with
      | none => exact ih (pos + 1) (c == ('\n')) cs
      | some res =>
        obtain ⟨cap, rest⟩ := res
        refine List.Pairwise.cons ?_ (ih _ _ _)
        intro m hm
        have hlb := scanMatches_lb matchAt fuel
          (pos + ((c :: cs).length - rest.length)) _ rest m hm
        have hlt := hprog atLS (c :: cs) cap rest hmat
        have hlen : (c :: cs).length = cs.length + 1 := rfl
        show pos < m.1
        omega

theorem pairwise_lt_getLast (l : List (Nat × List Char))
    (hp : l.Pairwise (fun a b => a.1 < b.1)) (m : Nat × List Char) (hm : m ∈ l)
    (last : Nat × List Char) (hl : l.getLast? = some last) : m.1 ≤ last.1 := by
  induction l with
  | nil => simp at hm
  | cons x xs ih =>
    cases xs with
    | nil =>
      simp at hm hl
      rw [hm, hl]
    | cons y ys =>
      rw [List.getLast?_cons_cons] at hl
      rcases List.mem_cons.mp hm with hmx | hmtail
      · have hlastmem : last ∈ y :: ys := List.mem_of_getLast?_eq_some hl
        have := (List.pairwise_cons.mp hp).1 last hlastmem
        subst hmx
        omega
      · exact ih (List.pairwise_cons.mp hp).2 hmtail hl

/-- C3: Scenario A.  The text `"File: foo.py\n```python\ndef f(): pass\n```"`
parses to exactly one FileOperation: a Create of `foo.py` with language
`python` and content `def f(): pass`. -/
theorem parse_response_scenario_a :
    parse_response scenarioAText.data =
      Except.ok [{ op_type := OperationType.CREATE
                   file_path := ("foo.py").data
                   content := some (("def f(): pass").data)
                   line_start := none
                   line_end := none
                   language := some (("python").data) }] := by decide

/-- C6 counterexample: the path associated with a block is NOT always the
mention occurring last in the preceding text.  In
`"File: a.py\ncreate file b.py\n"` the pattern mentions are `a.py` at
position 0 and `b.py` at position 11, so the last mention is `b.py`, but
`_extract_file_path` returns `a.py`, because the `File:` pattern has
higher priority than the `create file` pattern; parsing a full response
with this preceding text likewise assigns the block the path `a.py`. -/
theorem extract_last_mention_counterexample :
    extract_file_path c6Text.data = some (("a.py").data) ∧
    allPatternMentions c6Text.data = [(0, ("a.py").data), (11, ("b.py").data)] ∧
    lastMentionSpec c6Text.data = some (("b.py").data) ∧
    (parse_response c6FullText.data).map (fun ops => ops.map
      (fun o => o.file_path)) = Except.ok [("a.py").data] ∧
    ("a.py").data ≠ ("b.py").data := by decide

/-- C6 amended: the extractor considers only the text preceding the
block's first occurrence (appending or changing anything at or after the
block cannot change the result); the five path patterns are tried in a
fixed priority order, and the result is the last match of the first
pattern that matches at all — recency decides only within one pattern,
where the scan produces matches at strictly increasing positions, making
the returned last match the positionally last mention of that pattern. -/
theorem extract_file_path_amended :
    (∀ (full1 full2 code : List Char) (i : Nat) (lang : List Char),
      code ≠ [] →
      prefixBeforeFirst code full1 = prefixBeforeFirst code full2 →
      detect_operation_for_block full1 code i lang =
        detect_operation_for_block full2 code i lang) ∧
    (∀ text : List Char, findallPos matchAtP1 text ≠ [] →
      extract_file_path text =
        ((findallPos matchAtP1 text).getLast?).map (fun m => stripChars m.2)) ∧
    (∀ text : List Char, findallPos matchAtP1 text = [] →
      findallPos matchAtP2 text ≠ [] →
      extract_file_path text =
        ((findallPos matchAtP2 text).getLast?).map (fun m => stripChars m.2)) ∧
    (∀ (matchAt : Bool → List Char → Option (List Char × List Char)),
      (∀ (b : Bool) (s : List Char) (cap rest : List Char),
        matchAt b s = some (cap, rest) → rest.length < s.length) →
      ∀ (text : List Char) (m : Nat × List Char), m ∈ findallPos matchAt text →
        ∀ (last : Nat × List Char),
          (findallPos matchAt text).getLast? = some last → m.1 ≤ last.1) := by
  refine ⟨?_, ?_, ?_, ?_⟩
  · intro full1 full2 code i lang hcode heq
    simp [detect_operation_for_block, hcode, heq]
  · intro text h1
    cases hm : findallPos matchAtP1 text with
    | nil => exact absurd hm h1
    | cons x xs => simp [extract_file_path, hm]
  · intro text h1 h2
    cases hm : findallPos matchAtP2 text with
    | nil => exact absurd hm h2
    | cons x xs => simp [extract_file_path, h1, hm]
  · intro matchAt hprog text m hm last hl
    exact pairwise_lt_getLast _ (scanMatches_sorted matchAt hprog _ _ _ _) m hm last hl

/-- Witness for the amended C6: appending text after the block does not
change the parsed operation; on the counterexample text the first matching
pattern's last match is returned; and the scan positions of a concrete
matcher are increasing (`0 ≤ 1` for the head-consuming matcher on `"ab"`). -/
theorem extract_file_path_amended_witness :
    detect_operation_for_block scenarioAText.data (("def f(): pass").data) 0
        (("python").data) =
      detect_operation_for_block (scenarioAText ++ "\nmore text").data
        (("def f(): pass").data) 0 (("python").data) ∧
    extract_file_path c6Text.data =
      ((findallPos matchAtP1 c6Text.data).getLast?).map (fun m => stripChars m.2) ∧
    (0 : Nat) ≤ (1 : Nat) := by
  have h := extract_file_path_amended
  refine ⟨?_, ?_, ?_⟩
  · exact h.1 scenarioAText.data (scenarioAText ++ "\nmore text").data
      (("def f(): pass").data) 0 (("python").data) (by decide) (by decide)
  · exact h.2.1 c6Text.data (by decide)
  · exact h.2.2.2 headMatcher
      (fun b s cap rest hrw => by
        cases s with
        | nil => simp [headMatcher] at hrw
        | cons c cs =>
          simp [headMatcher] at hrw
          rw [← hrw.2]
          simp)
      (("ab").data) (0, [('a')]) (by decide) (1, [('b')]) (by decide)

end Orchestra
